/-
  Verification of the VM-to-Symphony translator / assembler / simulator
  pipeline (src/assignment7).

  The development shallow-embeds the three Python components:
    * computer.py   : the SYMPHONY instruction-set simulator (`Computer`)
    * assembler.py  : the two-pass symbolic assembler (`Assembler`)
    * translator.py : the VM-language translator (`Translator`)

  Machine integers are modelled as unbounded `Int` (Python ints).  Fallible
  Python code (KeyError / IndexError / RuntimeError / ZeroDivisionError)
  is modelled with `Option` / `Except`.  Binary instruction words are
  16-character strings of '0'/'1', exactly as in the source.
-/
import Mathlib

deriving instance DecidableEq for Except

namespace Symphony

/-! ## The instruction-set simulator (computer.py) -/

/-- Machine state of the SYMPHONY computer (`Computer.__init__` / `reset`):
four general registers, a program counter, 24576 cells of RAM, the executed
instruction counter and the finished flag, plus the loaded program. -/
structure Computer where
  rA : Int
  rB : Int
  rC : Int
  rD : Int
  counter : Nat
  ram : Nat → Int
  iters : Nat
  finished : Bool
  program : List String

namespace Computer

/-- `Computer.RAM_SIZE` -/
def RAM_SIZE : Nat := 24576

/-- `Computer.MAX_ITERS` : the iteration safety bound. -/
def MAX_ITERS : Nat := 16384

/-- `Computer.STATIC`: first address of the static-variable region. -/
def STATIC : Nat := 16

/-- Python `int(s, 2)` on a string of '0'/'1' characters. -/
def binToNat (l : List Char) : Nat :=
  l.foldl (fun acc ch => 2 * acc + (if ch == '1' then 1 else 0)) 0

/-- A valid binary instruction word: exactly 16 characters, each '0' or '1'.
(`computer.py` slices fixed positions out of the word and parses them with
`int(_, 2)`; other strings raise.) -/
def validWord (s : String) : Bool :=
  s.length == 16 && s.data.all (fun ch => ch == '0' || ch == '1')

/-- `Computer.__decode`: split a word into
(type-bit, mode, operand-A selector, operand-B selector, result field). -/
def decode (s : String) : Option (Nat × Nat × Nat × Nat × Nat) :=
  if validWord s then
    let l := s.data
    some (binToNat (l.take 1), binToNat ((l.drop 1).take 4),
          binToNat ((l.drop 5).take 3), binToNat ((l.drop 8).take 3),
          binToNat (l.drop 11))
  else none

/-- Python list indexing of the RAM (`self.ram[i]` for an int index `i`):
indices in `[0, RAM_SIZE)` are used directly, negative indices in
`[-RAM_SIZE, 0)` wrap from the end, anything else raises IndexError. -/
def ramAddr (a : Int) : Option Nat :=
  if 0 ≤ a ∧ a < (RAM_SIZE : Int) then some a.toNat
  else if -(RAM_SIZE : Int) ≤ a ∧ a < 0 then some (a + RAM_SIZE).toNat
  else none

/-- `Computer.__getval`: operand selector to value.  4 ↦ constant 0,
5 ↦ constant 1, 7 ↦ RAM cell addressed by register A, 0-3 ↦ registers
A,B,C,D; selector 6 raises (IndexError on the 4-element register list). -/
def getval (c : Computer) (src : Nat) : Option Int :=
  if src = 4 then some 0
  else if src = 5 then some 1
  else if src = 7 then (ramAddr c.rA).map c.ram
  else if src = 0 then some c.rA
  else if src = 1 then some c.rB
  else if src = 2 then some c.rC
  else if src = 3 then some c.rD
  else none

/-- `Computer.__setval`: write `val` to every destination whose bit is set
in the 5-bit field `dst`.  The memory pseudo-register M (lowest bit) is
written first, using the current (pre-write) register A as address; then
registers A,B,C,D (bits 4,3,2,1) are written. -/
def setval (c : Computer) (dst : Nat) (val : Int) : Option Computer :=
  let regWrite : Computer → Computer := fun c' =>
    { c' with
      rA := if dst / 16 % 2 = 1 then val else c'.rA,
      rB := if dst / 8 % 2 = 1 then val else c'.rB,
      rC := if dst / 4 % 2 = 1 then val else c'.rC,
      rD := if dst / 2 % 2 = 1 then val else c'.rD }
  if dst % 2 = 1 then
    match ramAddr c.rA with
    | none => none
    | some a =>
        some (regWrite { c with ram := fun x => if x = a then val else c.ram x })
  else some (regWrite c)

/-- `Computer.__cmp`: comparison dispatch used by JMP.  The whole result
field is the comparison code: 0 never jumps, 4 always jumps, 1,2,3,5,6,7
are =, <, <=, !=, >=, >; every other value raises RuntimeError. -/
def cmpTest (a b : Int) (op : Nat) : Option Bool :=
  if op = 0 then some false
  else if op = 4 then some true
  else if op = 1 then some (decide (a = b))
  else if op = 2 then some (decide (a < b))
  else if op = 3 then some (decide (a ≤ b))
  else if op = 5 then some (decide (a ≠ b))
  else if op = 6 then some (decide (b ≤ a))
  else if op = 7 then some (decide (b < a))
  else none

/-- Python `~x` on ints. -/
def pyNot (x : Int) : Int := -(x + 1)

/-- Python `x // y` (floor division; ZeroDivisionError when `y = 0`). -/
def pyFloorDiv (x y : Int) : Option Int :=
  if y = 0 then none else some (x.fdiv y)

/-- Python `x % y` (remainder with the divisor's sign;
ZeroDivisionError when `y = 0`). -/
def pyMod (x y : Int) : Option Int :=
  if y = 0 then none else some (x.fmod y)

/-- Shared shape of the binary mode handlers `__and` … `__rem`:
read both operands, combine, write to the result field, do not jump. -/
def binMode (c : Computer) (a1 a2 res : Nat) (f : Int → Int → Option Int) :
    Option (Int × Computer) :=
  match c.getval a1 with
  | none => none
  | some x =>
    match c.getval a2 with
    | none => none
    | some y =>
      match f x y with
      | none => none
      | some v =>
        match c.setval res v with
        | none => none
        | some c' => some (-1, c')

/-- Shared shape of the unary mode handlers `__copy`, `__not`, `__neg`. -/
def unMode (c : Computer) (a1 res : Nat) (f : Int → Int) :
    Option (Int × Computer) :=
  match c.getval a1 with
  | none => none
  | some x =>
    match c.setval res (f x) with
    | none => none
    | some c' => some (-1, c')

/-- `Computer.__MODES` dispatch: execute one Operation instruction, returning
the jump target (−1 meaning "advance") and the new state.  Unmapped modes
(0, 5, 6, 7) raise KeyError. -/
def execMode (c : Computer) (mode a1 a2 res : Nat) : Option (Int × Computer) :=
  if mode = 1 then c.unMode a1 res pyNot
  else if mode = 2 then c.binMode a1 a2 res (fun x y => some (Int.land x y))
  else if mode = 3 then c.binMode a1 a2 res (fun x y => some (Int.lor x y))
  else if mode = 4 then c.binMode a1 a2 res (fun x y => some (Int.xor x y))
  else if mode = 8 then c.unMode a1 res id
  else if mode = 9 then c.unMode a1 res (fun x => -x)
  else if mode = 10 then c.binMode a1 a2 res (fun x y => some (x + y))
  else if mode = 11 then c.binMode a1 a2 res (fun x y => some (x - y))
  else if mode = 12 then c.binMode a1 a2 res (fun x y => some (x * y))
  else if mode = 13 then c.binMode a1 a2 res pyFloorDiv
  else if mode = 14 then c.binMode a1 a2 res pyMod
  else if mode = 15 then
    match c.getval a1 with
    | none => none
    | some x =>
      match c.getval a2 with
      | none => none
      | some y =>
        match cmpTest x y res with
        | none => none
        -- `__jmp` jumps to `__getval(0)`, i.e. the value of register A.
        | some b => some (if b then (c.rA, c) else (-1, c))
  else none

/-- `Computer.step`: execute one instruction.  Returns `false` (and executes
nothing) once finished, when the program counter has run past the end of the
program, or when `MAX_ITERS` instructions have been executed; otherwise
decodes and executes the current instruction and advances or redirects the
program counter.  `none` models a raised Python exception. -/
def step (c : Computer) : Option (Bool × Computer) :=
  if c.finished then some (false, c)
  else if c.program.length ≤ c.counter then some (false, { c with finished := true })
  else if MAX_ITERS ≤ c.iters then some (false, { c with finished := true })
  else
    let c1 : Computer := { c with iters := c.iters + 1 }
    let instr := c1.program.getD c1.counter ""
    match decode instr with
    | none => none
    | some (ty, mode, a1, a2, res) =>
      if ty = 0 then
        -- `__immediate`: the whole word, parsed as binary, goes into A.
        some (true, { c1 with
          rA := (binToNat instr.data : Int),
          counter := c1.counter + 1 })
      else
        match c1.execMode mode a1 a2 res with
        | none => none
        | some (jump, c2) =>
          if jump < 0 then some (true, { c2 with counter := c2.counter + 1 })
          else some (true, { c2 with counter := jump.toNat })

/-- `Computer.load`: reset all state and install a program. -/
def load (p : List String) : Computer :=
  { rA := 0, rB := 0, rC := 0, rD := 0, counter := 0, ram := fun _ => 0,
    iters := 0, finished := false, program := p }

/-- The body of `Computer.run` (`while not finished: step()`), with an
explicit fuel argument; `runFuel_stable` below proves that
`MAX_ITERS + 2` fuel always suffices for the loop to have exited, so the
fuelled function is exactly the unbounded while loop. -/
def runFuel : Nat → Computer → Option Computer
  | 0, c => some c
  | f + 1, c =>
    if c.finished then some c
    else
      match c.step with
      | none => none
      | some (_, c') => runFuel f c'

/-- `Computer.run`: step until halted (see `runFuel`). -/
def run (c : Computer) : Option Computer := runFuel (MAX_ITERS + 2) c

/-- Iterate `step` a fixed number of times (ignoring the continue flag). -/
def stepN : Nat → Computer → Option Computer
  | 0, c => some c
  | n + 1, c =>
    match c.step with
    | none => none
    | some (_, c') => stepN n c'

/-- Iterate `step` a fixed number of times, requiring every step to have
executed an instruction (continue flag `true`). -/
def stepsN : Nat → Computer → Option Computer
  | 0, c => some c
  | n + 1, c =>
    match c.step with
    | some (true, c') => stepsN n c'
    | _ => none

/-- The "top of the operand stack" of a state: the RAM cell just below the
stack pointer held in RAM cell 0. -/
def topStack (c : Computer) : Int := c.ram ((c.ram 0).toNat - 1)

/-- The body of `step` past its three halt guards: decode and execute the
current instruction on the state with the iteration counter already
incremented (`step_eq_stepExec` relates the two). -/
def stepExec (c : Computer) : Option (Bool × Computer) :=
  let c1 : Computer := { c with iters := c.iters + 1 }
  let instr := c1.program.getD c1.counter ""
  match decode instr with
  | none => none
  | some (ty, mode, a1, a2, res) =>
    if ty = 0 then
      some (true, { c1 with
        rA := (binToNat instr.data : Int),
        counter := c1.counter + 1 })
    else
      match c1.execMode mode a1 a2 res with
      | none => none
      | some (jump, c2) =>
        if jump < 0 then some (true, { c2 with counter := c2.counter + 1 })
        else some (true, { c2 with counter := jump.toNat })

/-- An unconditional self-loop: `JMP` with comparison code 4 (always) and
register A still 0, so the program counter is set back to instruction 0
forever. -/
def selfLoopWord : String := "1111100000000100"

/-- The machine after `k` trips around the self-loop. -/
def selfLoopState (k : Nat) : Computer :=
  { rA := 0, rB := 0, rC := 0, rD := 0, counter := 0, ram := fun _ => 0,
    iters := k, finished := false, program := [selfLoopWord] }

/-- The instruction-execution handlers never touch the iteration counter,
the finished flag or the loaded program. -/
def frameEq (c c' : Computer) : Prop :=
  c'.iters = c.iters ∧ c'.finished = c.finished ∧ c'.program = c.program

/-- Termination measure for the `run` while-loop. -/
def loopMeasure (c : Computer) : Nat :=
  if c.finished then 0 else (MAX_ITERS - c.iters) + 2

end Computer

/-! ## The symbolic assembler (assembler.py) -/

namespace Assembler

/-- The registers a result set may name (`registerset` in the grammar). -/
inductive Reg where
  | A | B | C | D | M
deriving DecidableEq, Repr, Fintype

/-- A single operand: `register | constant` in the grammar (`zero`/`one`
are the grammar aliases for the constants 0 and 1). -/
inductive Operand where
  | A | B | C | D | zero | one | M
deriving DecidableEq, Repr, Fintype

/-- The parse of a `registerset`: which of A,B,C,D,M appear.  (`__registers`
immediately reduces the parsed register list to this membership
information when it builds the 5-bit result field.) -/
structure RegSet where
  a : Bool
  b : Bool
  c : Bool
  d : Bool
  m : Bool
deriving DecidableEq, Repr, Fintype

/-- Binary operators of `calculate` statements. -/
inductive BinOp where
  | and | or | xor | add | sub | mul | div | rem
deriving DecidableEq, Repr, Fintype

/-- Comparison operators of `conditional` statements. -/
inductive CmpOp where
  | eq | ne | gt | ge | lt | le
deriving DecidableEq, Repr

/-- Abstract syntax of one symbolic assembly statement — the parse tree
shapes produced by the `Assembler.GRAMMAR` (comments and whitespace are
ignored by the grammar). -/
inductive AsmStmt where
  | immediate_num (n : Nat)
  | immediate_name (x : String)
  | copy (dst : RegSet) (src : Operand)
  | negate (dst : RegSet) (src : Operand)
  | negative (dst : RegSet) (src : Operand)
  | calculate (dst : RegSet) (x : Operand) (op : BinOp) (y : Operand)
  | conditional (x : Operand) (cmp : CmpOp) (y : Operand) (target : String)
  | goto (target : String)
  | label (name : String)
  | jump
deriving DecidableEq, Repr

/-- `Assembler.reg_map`. -/
def reg_map : Operand → String
  | .A => "000"
  | .B => "001"
  | .C => "010"
  | .D => "011"
  | .zero => "100"
  | .one => "101"
  | .M => "111"

/-- `Assembler.__registers`: the 5-bit result field, one bit per register
in the order A,B,C,D,M. -/
def registers (d : RegSet) : String :=
  (if d.a then "1" else "0") ++ (if d.b then "1" else "0") ++
  (if d.c then "1" else "0") ++ (if d.d then "1" else "0") ++
  (if d.m then "1" else "0")

/-- `Assembler.op_map` (the four unary/`jmp` entries are inlined at their
use sites, as in the handlers). -/
def op_map : BinOp → String
  | .and => "0010"
  | .or => "0011"
  | .xor => "0100"
  | .add => "1010"
  | .sub => "1011"
  | .mul => "1100"
  | .div => "1101"
  | .rem => "1110"

/-- `Assembler.cmp_map`. -/
def cmp_map : CmpOp → String
  | .eq => "001"
  | .lt => "010"
  | .le => "011"
  | .ne => "101"
  | .ge => "110"
  | .gt => "111"

/-- Python `f'{v:015b}'` for `v < 2^15` (all label addresses and variable
addresses the assembler allocates fit; numeric immediates in the claims
stay below 2^15 as well). -/
def bin15 (v : Nat) : String :=
  ⟨(List.range 15).map (fun i => if v / 2 ^ (14 - i) % 2 = 1 then '1' else '0')⟩

/-- The `w` most-significant-first bits of `v` as characters — the list
`bin15` builds, parametrized by the width for induction. -/
def bitChars : Nat → Nat → List Char
  | 0, _ => []
  | w + 1, v => (if v / 2 ^ w % 2 = 1 then '1' else '0') :: bitChars w v

/-- The predefined variable table installed by `Assembler.reset`
(26 entries; `SP`…`THAT` alias `R0`…`R4`). -/
def varlookupInit : List (String × Nat) :=
  [("R0", 0), ("R1", 1), ("R2", 2), ("R3", 3),
   ("R4", 4), ("R5", 5), ("R6", 6), ("R7", 7),
   ("R8", 8), ("R9", 9), ("R10", 10), ("R11", 11),
   ("R12", 12), ("R13", 13), ("R14", 14), ("R15", 15),
   ("SP", 0), ("LCL", 1), ("ARG", 2), ("THIS", 3), ("THAT", 4),
   ("SCREEN", 16384), ("DISPLAY", 20481), ("KEYBOARD", 20480),
   ("INPUT", 20486), ("OUTPUT", 20487)]

/-- `Assembler.predefined_variables`. -/
def predefined_variables : Nat := 26

/-- A pre-binary instruction, the elements of `pre_instructions`.  The
source represents the last two shapes by sentinel strings
(`f'{label}_____'` and `f'_____{label}'` with `__MARKER = '_____'`); the
tagged form is the same data. -/
inductive PreInstr where
  | word (w : String)
  | deferred (label : String)
  | labelPos (name : String)
deriving DecidableEq, Repr

/-- First pass of `assemble`: collect label definitions in order, failing
on a duplicate (`Label <name> already defined`). -/
def scanLabels : List AsmStmt → List String → Except String (List String)
  | [], acc => .ok acc
  | .label l :: rest, acc =>
    if l ∈ acc then .error ("Label " ++ l ++ " already defined")
    else scanLabels rest (acc ++ [l])
  | _ :: rest, acc => scanLabels rest acc

/-- Lower one statement to pre-binary instructions
(`Assembler.__immediate` … `__jump`), threading the variable table.
`labels` is the key set of the label table filled by the first pass.
The `len(arg) > 3` two-word paths of `__copy`/`__negate`/`__negative`/
`__calculate` are unreachable: `__register_or_constant` always returns a
3-character selector for the grammar's `register | constant` operands. -/
def lower (labels : List String) :
    AsmStmt → List (String × Nat) → List PreInstr × List (String × Nat)
  | .immediate_num n, vl => ([.word ("0" ++ bin15 n)], vl)
  | .immediate_name x, vl =>
    if x ∈ labels then ([.deferred x], vl)
    else
      match vl.lookup x with
      | some v => ([.word ("0" ++ bin15 v)], vl)
      | none =>
        let v := Computer.STATIC + vl.length - predefined_variables
        ([.word ("0" ++ bin15 v)], vl ++ [(x, v)])
  | .copy dst src, vl =>
    ([.word ("1" ++ "1000" ++ reg_map src ++ "000" ++ registers dst)], vl)
  | .negate dst src, vl =>
    ([.word ("1" ++ "0001" ++ reg_map src ++ "000" ++ registers dst)], vl)
  | .negative dst src, vl =>
    ([.word ("1" ++ "1001" ++ reg_map src ++ "000" ++ registers dst)], vl)
  | .calculate dst x op y, vl =>
    ([.word ("1" ++ op_map op ++ reg_map x ++ reg_map y ++ registers dst)], vl)
  | .conditional x cmp y l, vl =>
    ([.deferred l, .word ("11111" ++ reg_map x ++ reg_map y ++ "00" ++ cmp_map cmp)], vl)
  | .goto l, vl => ([.deferred l, .word "1111100000000100"], vl)
  | .label name, vl => ([.labelPos name], vl)
  | .jump, vl => ([.word "1111100000000100"], vl)

/-- Second pass: lower every statement in order. -/
def lowerAll (labels : List String) :
    List AsmStmt → List (String × Nat) → List PreInstr × List (String × Nat)
  | [], vl => ([], vl)
  | s :: rest, vl =>
    let p := lower labels s vl
    let q := lowerAll labels rest p.2
    (p.1 ++ q.1, q.2)

/-- Third pass (`linenum` loop): record each label's instruction index. -/
def labelAddrs : List PreInstr → Nat → List (String × Nat)
  | [], _ => []
  | .labelPos l :: rest, n => (l, n) :: labelAddrs rest n
  | _ :: rest, n => labelAddrs rest (n + 1)

/-- Final pass: replace deferred label references by immediate words
(`Label <name> not defined` when the label never occurs), drop label
markers, keep finished words. -/
def resolve (addrs : List (String × Nat)) : List PreInstr → Except String (List String)
  | [] => .ok []
  | .deferred l :: rest =>
    match addrs.lookup l with
    | none => .error ("Label " ++ l ++ " not defined")
    | some n => (resolve addrs rest).map (fun ws => ("0" ++ bin15 n) :: ws)
  | .labelPos _ :: rest => resolve addrs rest
  | .word w :: rest => (resolve addrs rest).map (fun ws => w :: ws)

/-- `Assembler.assemble`: reset the tables, run the passes, and return the
binary words or the first error. -/
def assemble (stmts : List AsmStmt) : Except String (List String) :=
  match scanLabels stmts [] with
  | .error e => .error e
  | .ok labels =>
    let p := lowerAll labels stmts varlookupInit
    resolve (labelAddrs p.1 0) p.1

/-! The human-readable disassembler (`assembler.disassemble`) and the
canonical rendering it inverts. -/

/-- The `modes` table of `disassemble` (missing keys raise). -/
def modeName (s : String) : Option String :=
  if s = "0001" then some "NOT"
  else if s = "0010" then some "AND"
  else if s = "0011" then some "OR"
  else if s = "0100" then some "XOR"
  else if s = "1000" then some "CPY"
  else if s = "1001" then some "NEG"
  else if s = "1010" then some "ADD"
  else if s = "1011" then some "SUB"
  else if s = "1100" then some "MUL"
  else if s = "1101" then some "DIV"
  else if s = "1110" then some "REM"
  else if s = "1111" then some "JMP"
  else none

/-- The `ops` table of `disassemble`. -/
def opName (s : String) : Option String :=
  if s = "000" then some "A"
  else if s = "001" then some "B"
  else if s = "010" then some "C"
  else if s = "011" then some "D"
  else if s = "100" then some "0"
  else if s = "101" then some "1"
  else if s = "111" then some "M"
  else none

/-- The `cmps` table of `disassemble` (total on 3-bit fields). -/
def cmpName (s : String) : Option String :=
  if s = "000" then some "NIL"
  else if s = "001" then some "="
  else if s = "010" then some "<"
  else if s = "011" then some "<="
  else if s = "100" then some "JMP"
  else if s = "101" then some "!="
  else if s = "110" then some ">="
  else if s = "111" then some ">"
  else none

/-- `''.join(a for a, i in zip('ABCDM', instruction[11:]) if i == '1')`. -/
def resString (bits : List Char) : String :=
  ⟨(List.zip ['A', 'B', 'C', 'D', 'M'] bits).filterMap
    (fun p => if p.2 = '1' then some p.1 else none)⟩

/-- The operator symbols of the binary rendering branch (`v` in the
source); only the eight binary mode names are ever looked up. -/
def binSymbol (mode : String) : String :=
  if mode = "AND" then "&"
  else if mode = "OR" then "|"
  else if mode = "XOR" then "^"
  else if mode = "ADD" then "+"
  else if mode = "SUB" then "-"
  else if mode = "MUL" then "*"
  else if mode = "DIV" then "/"
  else if mode = "REM" then "%"
  else ""

/-- `assembler.disassemble`: one binary word back to a symbolic line.
`none` models a KeyError (unmapped mode or operand selector) or an index
error on the empty string. -/
def disassemble (instruction : String) : Option String :=
  match instruction.data with
  | [] => none
  | c :: restl =>
    if c = '0' then some ("@" ++ toString (Computer.binToNat restl))
    else
      let l := instruction.data
      match modeName ⟨(l.drop 1).take 4⟩ with
      | none => none
      | some mode =>
        match opName ⟨(l.drop 5).take 3⟩ with
        | none => none
        | some x =>
          match opName ⟨(l.drop 8).take 3⟩ with
          | none => none
          | some y =>
            let res := resString (l.drop 11)
            if mode = "JMP" then
              match cmpName ⟨l.drop 13⟩ with
              | none => none
              | some cmp =>
                if cmp = "NIL" ∨ cmp = "JMP" then some cmp
                else some ("JMP " ++ x ++ " " ++ cmp ++ " " ++ y)
            else if mode = "NOT" then some (res ++ " = !" ++ x)
            else if mode = "CPY" then some (res ++ " = " ++ x)
            else if mode = "NEG" then some (res ++ " = -" ++ x)
            else some (res ++ " = " ++ x ++ " " ++ binSymbol mode ++ " " ++ y)

/-- The address `__immediate` resolves a non-label name to on a fresh
assembler: a predefined variable's address, or the first free static slot. -/
def nameValue (x : String) : Nat :=
  match varlookupInit.lookup x with
  | some v => v
  | none => Computer.STATIC + varlookupInit.length - predefined_variables

/-- The one word a single-word statement encodes to (the word built by the
corresponding branch of `lower`). -/
def encodeWord : AsmStmt → String
  | .immediate_num n => "0" ++ bin15 n
  | .immediate_name x => "0" ++ bin15 (nameValue x)
  | .copy dst src => "1" ++ "1000" ++ reg_map src ++ "000" ++ registers dst
  | .negate dst src => "1" ++ "0001" ++ reg_map src ++ "000" ++ registers dst
  | .negative dst src => "1" ++ "1001" ++ reg_map src ++ "000" ++ registers dst
  | .calculate dst x op y =>
    "1" ++ op_map op ++ reg_map x ++ reg_map y ++ registers dst
  | .jump => "1111100000000100"
  | _ => ""

/-- The grammar-valid statements that encode to exactly one word: numeric
immediates below 2^15 (larger ones overflow the 15-bit field into a
17-character word), named immediates, copy/negate/negative with a
non-empty register set, calculate additionally with at most one constant
operand, and the bare `JUMP`. -/
def singleWordOk : AsmStmt → Bool
  | .immediate_num n => n < 32768
  | .immediate_name _ => true
  | .copy dst _ => dst.a || dst.b || dst.c || dst.d || dst.m
  | .negate dst _ => dst.a || dst.b || dst.c || dst.d || dst.m
  | .negative dst _ => dst.a || dst.b || dst.c || dst.d || dst.m
  | .calculate dst x _ y =>
    (dst.a || dst.b || dst.c || dst.d || dst.m) &&
      !((x = Operand.zero || x = Operand.one) &&
        (y = Operand.zero || y = Operand.one))
  | .jump => true
  | _ => false

/-- The register letters of a result set, in A,B,C,D,M order. -/
def resOf (d : RegSet) : String :=
  (if d.a then "A" else "") ++ (if d.b then "B" else "") ++
  (if d.c then "C" else "") ++ (if d.d then "D" else "") ++
  (if d.m then "M" else "")

/-- How an operand prints. -/
def operandName : Operand → String
  | .A => "A"
  | .B => "B"
  | .C => "C"
  | .D => "D"
  | .zero => "0"
  | .one => "1"
  | .M => "M"

/-- How a binary operator prints. -/
def opSymbol : BinOp → String
  | .and => "&"
  | .or => "|"
  | .xor => "^"
  | .add => "+"
  | .sub => "-"
  | .mul => "*"
  | .div => "/"
  | .rem => "%"

/-- The canonical symbolic form `disassemble` produces for a single-word
statement: the statement itself up to whitespace, except that immediates
come back as `@<resolved value>` and `JUMP` comes back as `JMP`. -/
def render : AsmStmt → String
  | .immediate_num n => "@" ++ toString n
  | .immediate_name x => "@" ++ toString (nameValue x)
  | .copy d src => resOf d ++ " = " ++ operandName src
  | .negate d src => resOf d ++ " = !" ++ operandName src
  | .negative d src => resOf d ++ " = -" ++ operandName src
  | .calculate d x op y =>
    resOf d ++ " = " ++ operandName x ++ " " ++ opSymbol op ++ " " ++ operandName y
  | .jump => "JMP"
  | _ => ""

end Assembler

/-! ## The VM translator (translator.py) -/

namespace Translator

open Assembler

/-- The VM-language segments. -/
inductive Segment where
  | LOCAL | ARGUMENT | THIS | THAT | CONSTANT | STATIC | POINTER | TEMP
deriving DecidableEq, Repr

/-- The fifteen zero-operand VM operators (plus `NOT`). -/
inductive VMOp where
  | AND | OR | NOT | XOR | ADD | SUB | NEG | MUL | DIV | REM
  | EQ | LT | GT | NE | LE | GE
deriving DecidableEq, Repr

/-- Abstract syntax of one VM statement (the parse tree shapes of
`Translator.GRAMMAR`; comments and whitespace are ignored). -/
inductive VMStmt where
  | push (seg : Segment) (n : Nat)
  | pop (seg : Segment) (n : Nat)
  | op (o : VMOp)
  | label (name : String)
  | goto (name : String)
  | ifgoto (name : String)
  | call (fname : String) (nargs : Nat)
  | fdefine (fname : String) (nvars : Nat)
  | freturn
  | output (seg : Segment) (n : Nat)
deriving DecidableEq, Repr

/-- Register-set shorthands for the destination fields the translator
emits. -/
def rsA : RegSet := ⟨true, false, false, false, false⟩

def rsB : RegSet := ⟨false, true, false, false, false⟩

def rsC : RegSet := ⟨false, false, true, false, false⟩

def rsD : RegSet := ⟨false, false, false, true, false⟩

def rsM : RegSet := ⟨false, false, false, false, true⟩

def rsAM : RegSet := ⟨true, false, false, false, true⟩

/-- A register name as a source operand. -/
def regOperand : Reg → Operand
  | .A => .A
  | .B => .B
  | .C => .C
  | .D => .D
  | .M => .M

/-- A register name as a destination set. -/
def regSetOf : Reg → RegSet
  | .A => rsA
  | .B => rsB
  | .C => rsC
  | .D => rsD
  | .M => rsM

/-- `Translator.MARKER`. -/
def MARKER : String := "____"

/-- The mutable translator state: the synthetic-label counter and the
current function scope (`__counter`, `__current_function`). -/
structure TransState where
  counter : Nat
  current_function : Option String
deriving DecidableEq, Repr

/-- `Translator.__make_label`: qualify a label with the enclosing
function. -/
def make_label (st : TransState) (l : String) : String :=
  match st.current_function with
  | none => l
  | some f => f ++ "." ++ l

/-- Python `f'{n:04d}'`: the decimal rendering zero-padded to width 4. -/
def pad4 (n : Nat) : String :=
  let s := toString n
  ⟨List.replicate (4 - s.length) '0'⟩ ++ s

/-- The printed name of a VM operator (used in synthetic labels). -/
def vmOpName : VMOp → String
  | .AND => "AND"
  | .OR => "OR"
  | .NOT => "NOT"
  | .XOR => "XOR"
  | .ADD => "ADD"
  | .SUB => "SUB"
  | .NEG => "NEG"
  | .MUL => "MUL"
  | .DIV => "DIV"
  | .REM => "REM"
  | .EQ => "EQ"
  | .LT => "LT"
  | .GT => "GT"
  | .NE => "NE"
  | .LE => "LE"
  | .GE => "GE"

/-- `Translator.__push_from` (`@SP  AM=M+1  A=A-1  M=<reg>`); translate
only ever calls it with B, C or D, so the invalid-register guard never
fires. -/
def push_from (r : Reg) : List AsmStmt :=
  [.immediate_name "SP", .calculate rsAM .M .add .one,
   .calculate rsA .A .sub .one, .copy rsM (regOperand r)]

/-- `Translator.__pop_into` (`@SP  AM=M-1  <reg>=M`). -/
def pop_into (r : Reg) : List AsmStmt :=
  [.immediate_name "SP", .calculate rsAM .M .sub .one,
   .copy (regSetOf r) .M]

/-- `Translator.__bootstrap` (`@256  D=A  @SP  M=D`). -/
def bootstrap : List AsmStmt :=
  [.immediate_num 256, .copy rsD .A, .immediate_name "SP", .copy rsM .D]

/-- `Translator.__advance_A`. -/
def advance_A (offset : Nat) : List AsmStmt :=
  if offset > 3 then
    [.copy rsB .A, .immediate_num offset, .calculate rsA .A .add .B]
  else
    List.replicate offset (.calculate rsA .A .add .one)

/-- `Translator.__label` (emits the scoped label and bumps the counter). -/
def labelStmts (st : TransState) (l : String) : List AsmStmt × TransState :=
  ([.label (make_label st l)], { st with counter := st.counter + 1 })

/-- `Translator.__goto`. -/
def gotoStmts (st : TransState) (l : String) : List AsmStmt :=
  [.goto (make_label st l)]

/-- `Translator.__function`: define the label, set the scope, zero D and
push `nvars` zero-initialized locals. -/
def functionStmts (st : TransState) (name : String) (nvars : Nat) :
    List AsmStmt × TransState :=
  ([.label name, .immediate_num 0, .copy rsD .A] ++
    (List.replicate nvars (push_from .D)).join,
   { st with current_function := some name })

/-- The comparison the `opmap` of `__conditional` knows; the other
operators raise KeyError there. -/
def cmpOfVMOp : VMOp → Option CmpOp
  | .EQ => some .eq
  | .LT => some .lt
  | .GT => some .gt
  | .NE => some .ne
  | .LE => some .le
  | .GE => some .ge
  | _ => none

/-- `Translator.__conditional`: the two-branch compare-and-push skeleton
with uniquely numbered synthetic labels. -/
def conditionalStmts (st : TransState) (o : VMOp)
    (truecmds falsecmds : List AsmStmt) :
    Except String (List AsmStmt × TransState) :=
  match cmpOfVMOp o with
  | none => .error ("KeyError: " ++ vmOpName o)
  | some c =>
    let beginL := MARKER ++ vmOpName o ++ "_BEGIN" ++ pad4 st.counter
    let endL := MARKER ++ vmOpName o ++ "_END" ++ pad4 st.counter
    .ok ([.conditional .C c .B beginL] ++ falsecmds ++
      [.goto endL, .label beginL] ++ truecmds ++ [.label endL],
      { st with counter := st.counter + 1 })

/-- The binary/unary `lookup` table of `__operator`. -/
def operatorLookup : VMOp → Option (List AsmStmt)
  | .AND => some [.calculate rsD .C .and .B]
  | .OR => some [.calculate rsD .C .or .B]
  | .NOT => some [.negate rsD .B]
  | .ADD => some [.calculate rsD .C .add .B]
  | .SUB => some [.calculate rsD .C .sub .B]
  | .NEG => some [.negative rsD .B]
  | .MUL => some [.calculate rsD .C .mul .B]
  | _ => none

/-- `Translator.__operator`: pop one or two operands, compute or branch,
push the result.  (`XOR`, `DIV` and `REM` are missing from the lookup
table and fall into `__conditional`, whose opmap raises KeyError.) -/
def operatorStmts (st : TransState) (o : VMOp) :
    Except String (List AsmStmt × TransState) :=
  let asm := pop_into .B ++
    (if o ≠ .NOT ∧ o ≠ .NEG then pop_into .C else [])
  match operatorLookup o with
  | some code => .ok (asm ++ code ++ push_from .D, st)
  | none =>
    match conditionalStmts st o ([.negate rsD .zero] ++ push_from .D)
        ([.copy rsD .zero] ++ push_from .D) with
    | .error e => .error e
    | .ok (cond, st') => .ok (asm ++ cond, st')

/-- `Translator.__output`: copy a value into the dedicated output cell. -/
def outputStmts (seg : Segment) (num : Nat) : Except String (List AsmStmt) :=
  match seg with
  | .ARGUMENT => .ok ([.immediate_name "ARG", .copy rsA .M] ++ advance_A num ++
      [.copy rsD .M, .immediate_name "OUTPUT", .copy rsM .D])
  | .LOCAL => .ok ([.immediate_name "LCL", .copy rsA .M] ++ advance_A num ++
      [.copy rsD .M, .immediate_name "OUTPUT", .copy rsM .D])
  | .STATIC => .ok [.immediate_name ("STATIC" ++ pad4 num), .copy rsD .M,
      .immediate_name "OUTPUT", .copy rsM .D]
  | .CONSTANT => .ok [.immediate_num num, .copy rsD .A,
      .immediate_name "OUTPUT", .copy rsM .D]
  | _ => .error "invalid instruction"

/-- `Translator.__push`: only the ARGUMENT/CONSTANT/LOCAL segments are
implemented; the rest emit nothing (just the comment). -/
def pushStmts (seg : Segment) (num : Nat) : List AsmStmt :=
  match seg with
  | .ARGUMENT => [.immediate_name "ARG", .copy rsA .M] ++ advance_A num ++
      [.copy rsD .M] ++ push_from .D
  | .CONSTANT => [.immediate_num num, .copy rsD .A] ++ push_from .D
  | .LOCAL => [.immediate_name "LCL", .copy rsA .M] ++ advance_A num ++
      [.copy rsD .M] ++ push_from .D
  | _ => []

/-- `Translator.__pop`: only ARGUMENT/LOCAL are implemented. -/
def popStmts (seg : Segment) (num : Nat) : List AsmStmt :=
  match seg with
  | .ARGUMENT => pop_into .D ++ [.immediate_name "ARG", .copy rsA .M] ++
      advance_A num ++ [.copy rsM .D]
  | .LOCAL => pop_into .D ++ [.immediate_name "LCL", .copy rsA .M] ++
      advance_A num ++ [.copy rsM .D]
  | _ => []

/-- `Translator.__ifgoto`: pop D and branch when non-zero. -/
def ifgotoStmts (st : TransState) (l : String) : List AsmStmt :=
  pop_into .D ++ [.conditional .D .ne .zero (make_label st l)]

/-- `Translator.__call`: push the return address and the caller's four
segment pointers, reposition ARG and LCL, jump to the callee, and place
the return label. -/
def callStmts (st : TransState) (name : String) (nargs : Nat) :
    List AsmStmt × TransState :=
  let ret := name ++ "$ret." ++ toString st.counter
  ([.immediate_name ret, .copy rsD .A] ++ push_from .D ++
    ([.immediate_name "LCL", .copy rsD .M] ++ push_from .D) ++
    ([.immediate_name "ARG", .copy rsD .M] ++ push_from .D) ++
    ([.immediate_name "THIS", .copy rsD .M] ++ push_from .D) ++
    ([.immediate_name "THAT", .copy rsD .M] ++ push_from .D) ++
    [.immediate_name "SP", .copy rsD .M, .immediate_num nargs,
     .calculate rsD .D .sub .A, .immediate_num 5, .calculate rsD .D .sub .A,
     .immediate_name "ARG", .copy rsM .D,
     .immediate_name "SP", .copy rsD .M, .immediate_name "LCL", .copy rsM .D,
     .immediate_name name, .jump, .label ret],
   { st with counter := st.counter + 1 })

/-- `Translator.__return`: relocate the return value to the caller's ARG
slot, reset SP just past it, restore the four saved pointers, and jump to
the saved return address. -/
def returnStmts : List AsmStmt :=
  [.immediate_name "LCL", .copy rsD .M, .immediate_name "R13", .copy rsM .D,
   .immediate_num 5, .calculate rsA .D .sub .A, .copy rsD .M,
   .immediate_name "R14", .copy rsM .D,
   .immediate_name "SP", .calculate rsA .M .sub .one, .copy rsD .M,
   .immediate_name "ARG", .copy rsA .M, .copy rsM .D,
   .immediate_name "ARG", .calculate rsD .M .add .one,
   .immediate_name "SP", .copy rsM .D,
   .immediate_name "R13", .calculate rsAM .M .sub .one, .copy rsD .M,
   .immediate_name "THAT", .copy rsM .D,
   .immediate_name "R13", .calculate rsAM .M .sub .one, .copy rsD .M,
   .immediate_name "THIS", .copy rsM .D,
   .immediate_name "R13", .calculate rsAM .M .sub .one, .copy rsD .M,
   .immediate_name "ARG", .copy rsM .D,
   .immediate_name "R13", .calculate rsAM .M .sub .one, .copy rsD .M,
   .immediate_name "LCL", .copy rsM .D,
   .immediate_name "R14", .copy rsA .M, .jump]

/-- Dispatch of `translate`'s main loop over one statement. -/
def translateStmt (st : TransState) : VMStmt → Except String (List AsmStmt × TransState)
  | .op o => operatorStmts st o
  | .push seg n => .ok (pushStmts seg n, st)
  | .pop seg n => .ok (popStmts seg n, st)
  | .label l => .ok (labelStmts st l)
  | .goto l => .ok (gotoStmts st l, st)
  | .ifgoto l => .ok (ifgotoStmts st l, st)
  | .call f n => .ok (callStmts st f n)
  | .fdefine f n => .ok (functionStmts st f n)
  | .freturn => .ok (returnStmts, st)
  | .output seg n => (outputStmts seg n).map (fun a => (a, st))

/-- The main loop of `translate`. -/
def translateAll (st : TransState) : List VMStmt → Except String (List AsmStmt)
  | [] => .ok []
  | s :: rest =>
    match translateStmt st s with
    | .error e => .error e
    | .ok (a, st') => (translateAll st' rest).map (fun b => a ++ b)

/-- `Translator.translate`: the bootstrap, the prologue call to
`Main.main`, the jump to the end label, the translated statements, and
the end label. -/
def translate (stmts : List VMStmt) : Except String (List AsmStmt) :=
  let st0 : TransState := ⟨0, none⟩
  let call0 := callStmts st0 "Main.main" 0
  match translateAll call0.2 stmts with
  | .error e => .error e
  | .ok body =>
    .ok (bootstrap ++ call0.1 ++ [.goto "_END_PROGRAM_"] ++ body ++
      [.label "_END_PROGRAM_"])

end Translator

namespace Computer

theorem frameEq_refl (c : Computer) : frameEq c c := ⟨rfl, rfl, rfl⟩

theorem setval_frameEq {c : Computer} {dst : Nat} {val : Int} {c' : Computer}
    (h : c.setval dst val = some c') : frameEq c c' := by
  unfold setval at h
  dsimp only at h
  by_cases hm : dst % 2 = 1
  · rw [if_pos hm] at h
    rcases ha : ramAddr c.rA with _ | a <;> rw [ha] at h <;> dsimp only at h
    · exact absurd h (by simp)
    · simp only [Option.some.injEq] at h
      rw [← h]
      exact ⟨rfl, rfl, rfl⟩
  · rw [if_neg hm] at h
    simp only [Option.some.injEq] at h
    rw [← h]
    exact ⟨rfl, rfl, rfl⟩

theorem unMode_frameEq {c : Computer} {a1 res : Nat} {f : Int → Int}
    {j : Int} {c' : Computer} (h : c.unMode a1 res f = some (j, c')) :
    frameEq c c' := by
  unfold unMode at h
  rcases hx : c.getval a1 with _ | x <;> rw [hx] at h <;> dsimp only at h
  · exact absurd h (by simp)
  rcases hs : c.setval res (f x) with _ | c2 <;> rw [hs] at h <;> dsimp only at h
  · exact absurd h (by simp)
  simp only [Option.some.injEq, Prod.mk.injEq] at h
  exact h.2 ▸ setval_frameEq hs

theorem binMode_frameEq {c : Computer} {a1 a2 res : Nat}
    {f : Int → Int → Option Int} {j : Int} {c' : Computer}
    (h : c.binMode a1 a2 res f = some (j, c')) : frameEq c c' := by
  unfold binMode at h
  rcases hx : c.getval a1 with _ | x <;> rw [hx] at h <;> dsimp only at h
  · exact absurd h (by simp)
  rcases hy : c.getval a2 with _ | y <;> rw [hy] at h <;> dsimp only at h
  · exact absurd h (by simp)
  rcases hv : f x y with _ | v <;> rw [hv] at h <;> dsimp only at h
  · exact absurd h (by simp)
  rcases hs : c.setval res v with _ | c2 <;> rw [hs] at h <;> dsimp only at h
  · exact absurd h (by simp)
  simp only [Option.some.injEq, Prod.mk.injEq] at h
  exact h.2 ▸ setval_frameEq hs

theorem execMode_frameEq {c : Computer} {mode a1 a2 res : Nat}
    {j : Int} {c' : Computer} (h : c.execMode mode a1 a2 res = some (j, c')) :
    frameEq c c' := by
  unfold execMode at h
  by_cases h1 : mode = 1
  · rw [if_pos h1] at h; exact unMode_frameEq h
  rw [if_neg h1] at h
  by_cases h2 : mode = 2
  · rw [if_pos h2] at h; exact binMode_frameEq h
  rw [if_neg h2] at h
  by_cases h3 : mode = 3
  · rw [if_pos h3] at h; exact binMode_frameEq h
  rw [if_neg h3] at h
  by_cases h4 : mode = 4
  · rw [if_pos h4] at h; exact binMode_frameEq h
  rw [if_neg h4] at h
  by_cases h8 : mode = 8
  · rw [if_pos h8] at h; exact unMode_frameEq h
  rw [if_neg h8] at h
  by_cases h9 : mode = 9
  · rw [if_pos h9] at h; exact unMode_frameEq h
  rw [if_neg h9] at h
  by_cases h10 : mode = 10
  · rw [if_pos h10] at h; exact binMode_frameEq h
  rw [if_neg h10] at h
  by_cases h11 : mode = 11
  · rw [if_pos h11] at h; exact binMode_frameEq h
  rw [if_neg h11] at h
  by_cases h12 : mode = 12
  · rw [if_pos h12] at h; exact binMode_frameEq h
  rw [if_neg h12] at h
  by_cases h13 : mode = 13
  · rw [if_pos h13] at h; exact binMode_frameEq h
  rw [if_neg h13] at h
  by_cases h14 : mode = 14
  · rw [if_pos h14] at h; exact binMode_frameEq h
  rw [if_neg h14] at h
  by_cases h15 : mode = 15
  case neg => rw [if_neg h15] at h; exact absurd h (by simp)
  rw [if_pos h15] at h
  -- the JMP branch
  rcases hx : c.getval a1 with _ | x <;> rw [hx] at h <;> dsimp only at h
  · exact absurd h (by simp)
  rcases hy : c.getval a2 with _ | y <;> rw [hy] at h <;> dsimp only at h
  · exact absurd h (by simp)
  rcases hb : cmpTest x y res with _ | b <;> rw [hb] at h <;> dsimp only at h
  · exact absurd h (by simp)
  simp only [Option.some.injEq] at h
  cases b <;> simp only [if_true, if_false, Bool.false_eq_true] at h <;>
    simp only [Prod.mk.injEq] at h <;> exact h.2 ▸ frameEq_refl c

/-- Case analysis of a non-finished step: it either raises, or succeeds and
the successor state is finished or has executed exactly one more
instruction below the safety bound. -/
theorem step_cases (c : Computer) (hf : c.finished = false) :
    c.step = none ∨
    ∃ b c', c.step = some (b, c') ∧
      (c'.finished = true ∨ (c'.iters = c.iters + 1 ∧ c.iters < MAX_ITERS)) := by
  unfold step
  rw [hf]
  simp only [Bool.false_eq_true, if_false]
  split
  · exact Or.inr ⟨false, _, rfl, Or.inl rfl⟩
  split
  · exact Or.inr ⟨false, _, rfl, Or.inl rfl⟩
  next h1 h2 =>
    have hit : c.iters < MAX_ITERS := by omega
    split
    · exact Or.inl rfl
    split
    · exact Or.inr ⟨true, _, rfl, Or.inr ⟨rfl, hit⟩⟩
    split
    · exact Or.inl rfl
    next jump c2 he =>
      have hfe := execMode_frameEq he
      split
      · exact Or.inr ⟨true, _, rfl, Or.inr ⟨hfe.1, hit⟩⟩
      · exact Or.inr ⟨true, _, rfl, Or.inr ⟨hfe.1, hit⟩⟩

theorem runFuel_finished (f : Nat) (c : Computer) (h : c.finished = true) :
    runFuel (f + 1) c = some c := by
  simp [runFuel, h]

theorem runFuel_step_none (f : Nat) (c : Computer) (hf : c.finished = false)
    (h : c.step = none) : runFuel (f + 1) c = none := by
  simp [runFuel, hf, h]

theorem runFuel_step_some (f : Nat) (c : Computer) (b : Bool) (c' : Computer)
    (hf : c.finished = false) (h : c.step = some (b, c')) :
    runFuel (f + 1) c = runFuel f c' := by
  simp [runFuel, hf, h]

theorem finished_of_loopMeasure_le_zero {c : Computer} (h : loopMeasure c ≤ 0) :
    c.finished = true := by
  unfold loopMeasure at h
  by_cases hb : c.finished = true
  · exact hb
  · rw [if_neg hb] at h; omega

theorem loopMeasure_step {c : Computer} {b : Bool} {c' : Computer}
    (hf : c.finished = false) (hs : c.step = some (b, c')) {f : Nat}
    (hc : loopMeasure c ≤ f + 1) : loopMeasure c' ≤ f := by
  have hμc : loopMeasure c = (MAX_ITERS - c.iters) + 2 := by
    unfold loopMeasure; rw [hf]; rfl
  rcases step_cases c hf with hnone | ⟨b2, c2, hs2, hc'⟩
  · rw [hnone] at hs; exact absurd hs (by simp)
  · rw [hs2] at hs
    simp only [Option.some.injEq, Prod.mk.injEq] at hs
    obtain ⟨hb2, hc2⟩ := hs
    rcases hc' with hdone | ⟨hi, hlt⟩
    · have hdone' : c'.finished = true := hc2 ▸ hdone
      simp [loopMeasure, hdone']
    · have hi' : c'.iters = c.iters + 1 := hc2 ▸ hi
      have hb : loopMeasure c' ≤ (MAX_ITERS - c'.iters) + 2 := by
        unfold loopMeasure; split <;> omega
      omega

theorem runFuel_succ_eq (f : Nat) :
    ∀ c : Computer, loopMeasure c ≤ f → runFuel (f + 1) c = runFuel f c := by
  induction f with
  | zero =>
    intro c hc
    rw [runFuel_finished 0 c (finished_of_loopMeasure_le_zero hc)]
    rfl
  | succ f ih =>
    intro c hc
    by_cases hfin : c.finished = true
    · rw [runFuel_finished (f + 1) c hfin, runFuel_finished f c hfin]
    · have hf : c.finished = false := by simpa using hfin
      rcases step_cases c hf with hnone | ⟨b, c', hs, hc'⟩
      · rw [runFuel_step_none (f + 1) c hf hnone, runFuel_step_none f c hf hnone]
      · rw [runFuel_step_some (f + 1) c b c' hf hs, runFuel_step_some f c b c' hf hs]
        exact ih c' (loopMeasure_step hf hs hc)

theorem runFuel_add_eq (f k : Nat) (c : Computer) (h : loopMeasure c ≤ f) :
    runFuel (f + k) c = runFuel f c := by
  induction k with
  | zero => rfl
  | succ k ih => rw [← Nat.add_assoc] at *; rw [runFuel_succ_eq (f + k) c (by omega), ih]

theorem loopMeasure_le (c : Computer) : loopMeasure c ≤ MAX_ITERS + 2 := by
  unfold loopMeasure; split <;> omega

/-- With `MAX_ITERS + 2` fuel the while-loop of `run` has always exited:
more fuel never changes the result. -/
theorem run_stable (k : Nat) (c : Computer) :
    runFuel (MAX_ITERS + 2 + k) c = c.run := by
  exact runFuel_add_eq (MAX_ITERS + 2) k c (loopMeasure_le c)

/-- `run` always ends: either an exception was raised or the final state is
finished. -/
theorem run_halts (c : Computer) :
    c.run = none ∨ ∃ c', c.run = some c' ∧ c'.finished = true := by
  suffices h : ∀ f c, loopMeasure c ≤ f →
      runFuel f c = none ∨ ∃ c', runFuel f c = some c' ∧ c'.finished = true by
    exact h (MAX_ITERS + 2) c (loopMeasure_le c)
  intro f
  induction f with
  | zero =>
    intro c hc
    exact Or.inr ⟨c, rfl, finished_of_loopMeasure_le_zero hc⟩
  | succ f ih =>
    intro c hc
    by_cases hfin : c.finished = true
    · exact Or.inr ⟨c, runFuel_finished f c hfin, hfin⟩
    · have hf : c.finished = false := by simpa using hfin
      rcases step_cases c hf with hnone | ⟨b, c', hs, hc'⟩
      · exact Or.inl (runFuel_step_none f c hf hnone)
      · rw [runFuel_step_some f c b c' hf hs]
        exact ih c' (loopMeasure_step hf hs hc)

/-- A step taken with the counter past the end of the program halts
silently: it flips `finished`, touches nothing else, and returns `false`. -/
theorem step_halt_pastEnd (c : Computer) (hf : c.finished = false)
    (hc : c.program.length ≤ c.counter) :
    c.step = some (false, { c with finished := true }) := by
  unfold step
  rw [hf]
  simp only [Bool.false_eq_true, if_false]
  rw [if_pos hc]

/-- A step taken at the iteration safety bound halts silently. -/
theorem step_halt_iters (c : Computer) (hf : c.finished = false)
    (hc : c.counter < c.program.length) (hi : MAX_ITERS ≤ c.iters) :
    c.step = some (false, { c with finished := true }) := by
  unfold step
  rw [hf]
  simp only [Bool.false_eq_true, if_false]
  rw [if_neg (by omega), if_pos hi]

/-- A step that executed an instruction was taken from a live state. -/
theorem step_true_not_finished {c c' : Computer}
    (h : c.step = some (true, c')) : c.finished = false := by
  by_cases hf : c.finished = true
  · rw [show c.step = some (false, c) from by unfold step; rw [hf]; rfl] at h
    simp at h
  · simpa using hf

theorem stepsN_add (a b : Nat) :
    ∀ c : Computer, stepsN (a + b) c = (stepsN a c).bind (stepsN b) := by
  induction a with
  | zero => intro c; rw [Nat.zero_add]; rfl
  | succ a ih =>
    intro c
    rw [show a + 1 + b = (a + b) + 1 from by omega]
    show (match c.step with
      | some (true, c') => stepsN (a + b) c'
      | _ => none) = (stepsN (a + 1) c).bind (stepsN b)
    rcases hs : c.step with _ | ⟨b2, c2⟩
    · rw [show stepsN (a + 1) c = none from by
        conv_lhs => unfold stepsN
        rw [hs]]
      rfl
    · rcases b2 with _ | _
      · rw [show stepsN (a + 1) c = none from by
          conv_lhs => unfold stepsN
          rw [hs]]
        rfl
      · rw [show stepsN (a + 1) c = stepsN a c2 from by
          conv_lhs => unfold stepsN
          rw [hs]]
        exact ih c2

/-- `stepsN` advances the `run` loop without consuming its termination
argument beyond the steps taken. -/
theorem runFuel_stepsN (n : Nat) :
    ∀ (f : Nat) (c c' : Computer), stepsN n c = some c' →
      runFuel (n + f) c = runFuel f c' := by
  induction n with
  | zero =>
    intro f c c' h
    rw [show stepsN 0 c = some c from rfl] at h
    simp only [Option.some.injEq] at h
    rw [Nat.zero_add, h]
  | succ n ih =>
    intro f c c' h
    rw [show stepsN (n + 1) c = (match c.step with
      | some (true, c2) => stepsN n c2
      | _ => none) from rfl] at h
    rcases hs : c.step with _ | ⟨b2, c2⟩ <;> rw [hs] at h
    · simp at h
    · rcases b2 with _ | _
      · simp at h
      · rw [show n + 1 + f = (n + f) + 1 from by omega,
          runFuel_step_some (n + f) c true c2 (step_true_not_finished hs) hs]
        exact ih f c2 c' h

/-- Below the halt guards, `step` is instruction execution. -/
theorem step_eq_stepExec (c : Computer) (hf : c.finished = false)
    (hc : c.counter < c.program.length) (hi : c.iters < MAX_ITERS) :
    c.step = stepExec c := by
  unfold step stepExec
  rw [hf]
  simp only [Bool.false_eq_true, if_false]
  rw [if_neg (by omega), if_neg (by omega)]

/-- `getval` ignores the iteration counter. -/
theorem getval_setIters (c : Computer) (k : Nat) (s : Nat) :
    getval { c with iters := k } s = c.getval s := rfl

theorem unMode_eq (c : Computer) (a1 res : Nat) (f : Int → Int) (x : Int)
    (c' : Computer) (hx : c.getval a1 = some x)
    (hs : c.setval res (f x) = some c') :
    c.unMode a1 res f = some (-1, c') := by
  unfold unMode
  rw [hx]
  dsimp only
  rw [hs]

theorem binMode_eq (c : Computer) (a1 a2 res : Nat) (f : Int → Int → Option Int)
    (x y v : Int) (c' : Computer) (hx : c.getval a1 = some x)
    (hy : c.getval a2 = some y) (hv : f x y = some v)
    (hs : c.setval res v = some c') :
    c.binMode a1 a2 res f = some (-1, c') := by
  unfold binMode
  rw [hx]
  dsimp only
  rw [hy]
  dsimp only
  rw [hv]
  dsimp only
  rw [hs]

theorem execMode_jmp (c : Computer) (a1 a2 res : Nat) (x y : Int) (b : Bool)
    (hx : c.getval a1 = some x) (hy : c.getval a2 = some y)
    (hb : cmpTest x y res = some b) :
    c.execMode 15 a1 a2 res = some (if b then (c.rA, c) else (-1, c)) := by
  show (match c.getval a1 with
    | none => none
    | some x =>
      match c.getval a2 with
      | none => none
      | some y =>
        match cmpTest x y res with
        | none => none
        | some b => some (if b then (c.rA, c) else (-1, c))) = _
  rw [hx]
  dsimp only
  rw [hy]
  dsimp only
  rw [hb]

theorem execMode_jmp_none (c : Computer) (a1 a2 res : Nat) (x y : Int)
    (hx : c.getval a1 = some x) (hy : c.getval a2 = some y)
    (hb : cmpTest x y res = none) :
    c.execMode 15 a1 a2 res = none := by
  show (match c.getval a1 with
    | none => none
    | some x =>
      match c.getval a2 with
      | none => none
      | some y =>
        match cmpTest x y res with
        | none => none
        | some b => some (if b then (c.rA, c) else (-1, c))) = _
  rw [hx]
  dsimp only
  rw [hy]
  dsimp only
  rw [hb]

/-- Executing an Operation instruction (type bit 1): the result of the mode
handler decides the next program counter. -/
theorem step_op (c : Computer) (mode a1 a2 res : Nat) (j : Int) (c2 : Computer)
    (hf : c.finished = false) (hc : c.counter < c.program.length)
    (hi : c.iters < MAX_ITERS)
    (hd : decode (c.program.getD c.counter "") = some (1, mode, a1, a2, res))
    (he : execMode { c with iters := c.iters + 1 } mode a1 a2 res = some (j, c2)) :
    c.step = some (true, if j < 0 then { c2 with counter := c2.counter + 1 }
                         else { c2 with counter := j.toNat }) := by
  rw [step_eq_stepExec c hf hc hi]
  unfold stepExec
  dsimp only
  rw [hd]
  dsimp only
  rw [if_neg (by decide : ¬(1 = 0)), he]
  dsimp only
  by_cases hj : j < 0 <;> simp [hj]

/-- Executing an Operation instruction whose handler raises. -/
theorem step_op_none (c : Computer) (mode a1 a2 res : Nat)
    (hf : c.finished = false) (hc : c.counter < c.program.length)
    (hi : c.iters < MAX_ITERS)
    (hd : decode (c.program.getD c.counter "") = some (1, mode, a1, a2, res))
    (he : execMode { c with iters := c.iters + 1 } mode a1 a2 res = none) :
    c.step = none := by
  rw [step_eq_stepExec c hf hc hi]
  unfold stepExec
  dsimp only
  rw [hd]
  dsimp only
  rw [if_neg (by decide : ¬(1 = 0)), he]

/-- Executing an Immediate instruction (type bit 0): the whole word goes
into register A and the counter advances. -/
theorem step_imm (c : Computer) (mode a1 a2 res : Nat)
    (hf : c.finished = false) (hc : c.counter < c.program.length)
    (hi : c.iters < MAX_ITERS)
    (hd : decode (c.program.getD c.counter "") = some (0, mode, a1, a2, res)) :
    c.step = some (true, { c with
      iters := c.iters + 1,
      rA := (binToNat (c.program.getD c.counter "").data : Int),
      counter := c.counter + 1 }) := by
  rw [step_eq_stepExec c hf hc hi]
  unfold stepExec
  dsimp only
  rw [hd]
  rfl

/-- One trip around the self-loop: the instruction jumps back to 0 and
only the iteration counter moves. -/
theorem selfLoop_step (k : Nat) (hk : k < MAX_ITERS) :
    (selfLoopState k).step = some (true, selfLoopState (k + 1)) := by
  rw [step_eq_stepExec (selfLoopState k) rfl (by simp [selfLoopState]) hk]
  rfl

/-- Spinning in the self-loop consumes the remaining iteration budget and
halts exactly at the bound. -/
theorem selfLoop_runFuel (j : Nat) :
    ∀ k, k + j = MAX_ITERS →
      runFuel (j + 2) (selfLoopState k) =
        some { selfLoopState MAX_ITERS with finished := true } := by
  induction j with
  | zero =>
    intro k hk
    have hk' : k = MAX_ITERS := by omega
    subst hk'
    have hs : (selfLoopState MAX_ITERS).step =
        some (false, { selfLoopState MAX_ITERS with finished := true }) :=
      step_halt_iters _ rfl (by simp [selfLoopState]) (le_refl _)
    rw [show (0 + 2 : Nat) = 1 + 1 from rfl,
      runFuel_step_some 1 _ false _ rfl hs]
    exact runFuel_finished 0 _ rfl
  | succ j ih =>
    intro k hk
    have hk' : k < MAX_ITERS := by omega
    rw [show j + 1 + 2 = (j + 2) + 1 from rfl,
      runFuel_step_some (j + 2) _ true (selfLoopState (k + 1)) rfl
        (selfLoop_step k hk')]
    exact ih (k + 1) (by omega)

/-- C3.  `step()` halts silently — returning `false`, executing nothing,
raising no error — as soon as the program counter runs past the end of the
loaded program or the executed-instruction count reaches the safety bound
of `MAX_ITERS = 16384`; consequently the `run` while-loop always exits
(extra fuel never changes the result, and the result is an exception or a
finished state), and the unconditional self-loop executes exactly 16384
instructions before halting. -/
theorem claim_C3_theorem :
    (∀ c : Computer, c.finished = false → c.program.length ≤ c.counter →
      c.step = some (false, { c with finished := true })) ∧
    (∀ c : Computer, c.finished = false → c.counter < c.program.length →
      MAX_ITERS ≤ c.iters → c.step = some (false, { c with finished := true })) ∧
    (∀ (k : Nat) (c : Computer), runFuel (MAX_ITERS + 2 + k) c = c.run) ∧
    (∀ c : Computer, c.run = none ∨ ∃ c', c.run = some c' ∧ c'.finished = true) ∧
    ((load [selfLoopWord]).run =
      some { selfLoopState MAX_ITERS with finished := true } ∧
      ({ selfLoopState MAX_ITERS with finished := true } : Computer).iters = 16384) := by
  refine ⟨step_halt_pastEnd, step_halt_iters, run_stable, run_halts, ?_, rfl⟩
  show runFuel (MAX_ITERS + 2) (selfLoopState 0) = _
  exact selfLoop_runFuel MAX_ITERS 0 rfl

/-- Witness for C3 at concrete inputs: the empty program halts on the first
step, and the self-loop program ends after exactly 16384 instructions. -/
theorem claim_C3_witness :
    (load []).step = some (false, { load [] with finished := true }) ∧
    ∃ c', (load [selfLoopWord]).run = some c' ∧ c'.iters = 16384 := by
  refine ⟨claim_C3_theorem.1 (load []) rfl (by simp [load]), ?_⟩
  exact ⟨_, claim_C3_theorem.2.2.2.2.1, claim_C3_theorem.2.2.2.2.2⟩

/-- C1, counterexample.  The word `1111110110000100` is a JMP whose
operand-A selector is 5 (the constant 1) and whose comparison code is 4
(unconditional).  The claim predicts the program counter becomes
operand-A's value, i.e. 1; after loading 3 into register A and executing
the jump, the program counter is in fact 3 (register A's value), not 1. -/
theorem claim_C1_counterexample :
    decode "1111110110000100" = some (1, 15, 5, 4, 4) ∧
    (stepN 1 (load ["0000000000000011", "1111110110000100"])).map
      (fun c => c.getval 5) = some (some 1) ∧
    (stepN 2 (load ["0000000000000011", "1111110110000100"])).map
      Computer.counter = some 3 ∧
    (3 : Nat) ≠ 1 := by
  exact ⟨by decide, rfl, rfl, by decide⟩

/-- C1 (amended).  For every Operation instruction with the JMP opcode,
`step()` compares operand-A with operand-B using the *entire 5-bit mask
field* as the comparison code — for the non-raising codes 0–7 this
coincides with its low 3 bits, while codes 8–31 raise an error — and when
the comparison holds it sets the program counter to *register A's* value
(advancing by one instead if that value is negative); when the comparison
fails it advances the program counter by one. -/
theorem claim_C1_theorem (c : Computer) (a1 a2 res : Nat) (x y : Int)
    (hf : c.finished = false) (hc : c.counter < c.program.length)
    (hi : c.iters < MAX_ITERS)
    (hd : decode (c.program.getD c.counter "") = some (1, 15, a1, a2, res))
    (hx : c.getval a1 = some x) (hy : c.getval a2 = some y) :
    (8 ≤ res → cmpTest x y res = none ∧ c.step = none) ∧
    (∀ b, cmpTest x y res = some b →
      c.step = some (true, { c with
        iters := c.iters + 1,
        counter := if b = true ∧ 0 ≤ c.rA then c.rA.toNat
                   else c.counter + 1 })) := by
  constructor
  · intro h8
    have hb : cmpTest x y res = none := by
      unfold cmpTest
      split_ifs <;> first | rfl | omega
    refine ⟨hb, ?_⟩
    refine step_op_none c 15 a1 a2 res hf hc hi hd ?_
    exact execMode_jmp_none _ a1 a2 res x y hx hy hb
  · intro b hb
    have he := execMode_jmp { c with iters := c.iters + 1 } a1 a2 res x y b
      ((getval_setIters c (c.iters + 1) a1).trans hx)
      ((getval_setIters c (c.iters + 1) a2).trans hy) hb
    cases b with
    | false =>
      rw [if_neg (by simp)] at he
      rw [step_op c 15 a1 a2 res (-1) _ hf hc hi hd he,
        if_pos (show (-1 : Int) < 0 by norm_num),
        if_neg (show ¬(false = true ∧ 0 ≤ c.rA) by simp)]
    | true =>
      rw [if_pos rfl] at he
      rw [step_op c 15 a1 a2 res c.rA _ hf hc hi hd he]
      by_cases hA : c.rA < 0
      · rw [if_pos hA,
          if_neg (show ¬(true = true ∧ 0 ≤ c.rA) from fun h => absurd h.2 (by omega))]
      · rw [if_neg hA, if_pos (show true = true ∧ 0 ≤ c.rA from ⟨rfl, by omega⟩)]

/-- Witness for the amended C1: a concrete unconditional JMP with register
A holding 3 redirects the program counter to 3. -/
theorem claim_C1_witness :
    ∃ c' : Computer,
      stepN 1 (load ["0000000000000011", "1111110110000100"]) = some c' ∧
      c'.step = some (true, { c' with
        iters := c'.iters + 1,
        counter := if true = true ∧ 0 ≤ c'.rA then c'.rA.toNat
                   else c'.counter + 1 }) := by
  refine ⟨_, rfl, ?_⟩
  exact (claim_C1_theorem _ 5 4 4 1 0 rfl (by decide) (by decide) (by decide)
    rfl rfl).2 true rfl

/-- `Int.fdiv` is invariant under negating both arguments (they describe
the same rational). -/
theorem fdiv_neg_neg (a b : Int) : Int.fdiv (-a) (-b) = Int.fdiv a b := by
  rcases a with m | m <;> rcases b with n | n
  · rcases m with _ | m
    · rcases n with _ | n
      · rfl
      · rfl
    · rcases n with _ | n
      · show (0 : Int) = Int.ofNat (Nat.succ m / 0)
        rw [Nat.div_zero]
        rfl
      · rfl
  · rcases m with _ | m
    · rfl
    · rfl
  · rcases n with _ | n
    · show Int.ofNat (Nat.succ m / 0) = (0 : Int)
      rw [Nat.div_zero]
      rfl
    · rfl
  · rfl

theorem fdiv_rat_bounds_pos (a b : Int) (hb : 0 < b) :
    ((a.fdiv b : Int) : ℚ) ≤ (a : ℚ) / (b : ℚ) ∧
    (a : ℚ) / (b : ℚ) < ((a.fdiv b : Int) : ℚ) + 1 := by
  rw [Int.fdiv_eq_ediv a (le_of_lt hb)]
  have hid := Int.ediv_add_emod a b
  have hr0 : 0 ≤ a % b := Int.emod_nonneg a (by omega)
  have hrb : a % b < b := Int.emod_lt_of_pos a hb
  have h1 : b * (a / b) ≤ a := by linarith
  have h2 : a < b * (a / b) + b := by linarith
  have hbq : (0 : ℚ) < (b : ℚ) := by exact_mod_cast hb
  constructor
  · rw [le_div_iff hbq]
    have : (a / b : Int) * b ≤ a := by linarith [mul_comm (b : Int) (a / b)]
    exact_mod_cast this
  · rw [div_lt_iff hbq]
    have : a < ((a / b : Int) + 1) * b := by
      have := mul_comm (b : Int) (a / b)
      linarith [add_mul (a / b : Int) 1 b]
    exact_mod_cast this

/-- `Int.fdiv` (Python `//`) takes the floor of the rational quotient. -/
theorem fdiv_rat_bounds (a b : Int) (hb : b ≠ 0) :
    ((a.fdiv b : Int) : ℚ) ≤ (a : ℚ) / (b : ℚ) ∧
    (a : ℚ) / (b : ℚ) < ((a.fdiv b : Int) : ℚ) + 1 := by
  rcases lt_or_gt_of_ne hb with hneg | hpos
  · have h := fdiv_rat_bounds_pos (-a) (-b) (by omega)
    rw [fdiv_neg_neg] at h
    have hcast : ((-a : Int) : ℚ) / ((-b : Int) : ℚ) = (a : ℚ) / (b : ℚ) := by
      push_cast
      rw [neg_div_neg_eq]
    rw [hcast] at h
    exact h
  · exact fdiv_rat_bounds_pos a b hpos

/-- C5.  The DIV and REM opcodes dispatch to Python's `//` and `%`, which
floor-divide: for every `a` and nonzero `b` the quotient is the largest
integer not exceeding `a / b`, and the remainder is `a` minus `b` times
that quotient — truncation toward negative infinity, not toward zero. -/
theorem claim_C5_theorem (a b : Int) (hb : b ≠ 0) :
    (∀ (c : Computer) (a1 a2 res : Nat),
      c.execMode 13 a1 a2 res = c.binMode a1 a2 res pyFloorDiv) ∧
    (∀ (c : Computer) (a1 a2 res : Nat),
      c.execMode 14 a1 a2 res = c.binMode a1 a2 res pyMod) ∧
    ∃ q : Int, pyFloorDiv a b = some q ∧
      (q : ℚ) ≤ (a : ℚ) / (b : ℚ) ∧ (a : ℚ) / (b : ℚ) < (q : ℚ) + 1 ∧
      pyMod a b = some (a - b * q) := by
  refine ⟨fun c a1 a2 res => rfl, fun c a1 a2 res => rfl,
    a.fdiv b, ?_, (fdiv_rat_bounds a b hb).1, (fdiv_rat_bounds a b hb).2, ?_⟩
  · unfold pyFloorDiv
    rw [if_neg hb]
  · unfold pyMod
    rw [if_neg hb, Int.fmod_def]

/-- Witness for C5 at `a = 7`, `b = -2`: the quotient is `-4` (floor of
`-3.5`) and the remainder is `-1`, matching floor semantics. -/
theorem claim_C5_witness :
    ∃ q : Int, pyFloorDiv 7 (-2) = some q ∧
      (q : ℚ) ≤ (7 : ℚ) / (-2 : ℚ) ∧ (7 : ℚ) / (-2 : ℚ) < (q : ℚ) + 1 ∧
      pyMod 7 (-2) = some (7 - (-2) * q) := by
  have h := (claim_C5_theorem 7 (-2) (by decide)).2.2
  convert h using 5 <;> norm_num

/-- C9.  Registers and memory hold unbounded signed integers: no operation
masks to 16 bits.  Logical-not of 0 is −1 (not 65535) and the two stay
distinct in comparisons; `setval` stores any value unchanged; and a
computed square of 32767 (1073676289, far above 65535) flows unchanged
into a subsequent addition. -/
theorem claim_C9_theorem :
    pyNot 0 = -1 ∧ pyNot 0 ≠ 65535 ∧
    cmpTest (pyNot 0) 65535 1 = some false ∧
    (∀ (c : Computer) (v : Int) (c' : Computer),
      c.setval 2 v = some c' → c'.rD = v) ∧
    ∃ cf : Computer,
      (load ["0111111111111111", "1100000000000010",
             "1110001101100010", "1101001110100010"]).run = some cf ∧
      cf.rD = 32767 * 32767 + 1 ∧ 65535 < cf.rD := by
  refine ⟨rfl, by decide, by decide, ?_, ?_⟩
  · intro c v c' h
    unfold setval at h
    dsimp only at h
    rw [if_neg (by decide)] at h
    simp only [Option.some.injEq] at h
    rw [← h]
    simp
  · exact ⟨_, rfl, by decide, by decide⟩

/-- Witness for C9's universal conjunct: writing 123456 to register D via
the result field 2 stores exactly 123456. -/
theorem claim_C9_witness :
    ∃ c' : Computer, (load []).setval 2 123456 = some c' ∧ c'.rD = 123456 := by
  refine ⟨_, rfl, ?_⟩
  exact claim_C9_theorem.2.2.2.1 (load []) 123456 _ rfl

/-- C10.  When the 5-bit result mask selects both the memory
pseudo-register M and register A, `setval` performs the memory write
first, at the address given by the *pre-instruction* value of register A,
and then writes the registers, so register A afterwards holds the new
value while the memory write went to the old address. -/
theorem claim_C10_theorem (c : Computer) (dst : Nat) (val : Int) (adr : Nat)
    (hM : dst % 2 = 1) (hA : dst / 16 % 2 = 1)
    (ha : ramAddr c.rA = some adr) :
    ∃ c', c.setval dst val = some c' ∧
      c'.ram adr = val ∧ c'.rA = val ∧
      (∀ x, x ≠ adr → c'.ram x = c.ram x) := by
  unfold setval
  dsimp only
  rw [if_pos hM, ha]
  refine ⟨_, rfl, ?_, ?_, ?_⟩
  · show (if adr = adr then val else c.ram adr) = val
    rw [if_pos rfl]
  · show (if dst / 16 % 2 = 1 then val else c.rA) = val
    rw [if_pos hA]
  · intro x hx
    show (if x = adr then val else c.ram x) = c.ram x
    rw [if_neg hx]

/-- Witness for C10: executing the result mask 17 (`AM=`) with value 8 on
a fresh machine writes RAM cell 0 (old A = 0) and then register A. -/
theorem claim_C10_witness :
    ∃ c', (load []).setval 17 8 = some c' ∧
      c'.ram 0 = 8 ∧ c'.rA = 8 ∧ (∀ x, x ≠ 0 → c'.ram x = (load []).ram x) := by
  exact claim_C10_theorem (load []) 17 8 0 (by decide) (by decide) (by decide)

end Computer

section AssemblerTheorems

open Assembler

/-- The first pass skips non-label statements. -/
theorem scanLabels_cons_nonlabel (s : AsmStmt)
    (hs : ∀ m, s ≠ AsmStmt.label m) (rest : List AsmStmt)
    (acc : List String) : scanLabels (s :: rest) acc = scanLabels rest acc := by
  cases s
  case label m => exact absurd rfl (hs m)
  all_goals rfl

/-- The first pass fails with a duplicate-label error whenever some label
has two definitions in the remaining statements, or one definition of a
label already recorded in the accumulator. -/
theorem scanLabels_dup (l : String) :
    ∀ (stmts : List AsmStmt) (acc : List String),
      (2 ≤ stmts.count (AsmStmt.label l) ∨
        (l ∈ acc ∧ 1 ≤ stmts.count (AsmStmt.label l))) →
      ∃ l', scanLabels stmts acc =
        .error ("Label " ++ l' ++ " already defined") := by
  intro stmts
  induction stmts with
  | nil =>
    intro acc h
    simp [List.count_nil] at h
  | cons s rest ih =>
    intro acc h
    by_cases hlab : ∃ m, s = AsmStmt.label m
    · obtain ⟨m, rfl⟩ := hlab
      by_cases hm : m ∈ acc
      · exact ⟨m, by unfold scanLabels; rw [if_pos hm]⟩
      · have hred : scanLabels (AsmStmt.label m :: rest) acc =
            scanLabels rest (acc ++ [m]) := by
          conv_lhs => unfold scanLabels
          rw [if_neg hm]
        rw [hred]
        by_cases hlm : l = m
        · subst hlm
          refine ih (acc ++ [l]) (Or.inr ⟨by simp, ?_⟩)
          have hc : (AsmStmt.label l :: rest).count (AsmStmt.label l) =
              rest.count (AsmStmt.label l) + 1 := by
            simp [List.count_cons]
          rcases h with h2 | ⟨hmem, _⟩
          · omega
          · exact absurd hmem hm
        · have hcnt : (AsmStmt.label m :: rest).count (AsmStmt.label l) =
              rest.count (AsmStmt.label l) := by
            rw [List.count_cons]
            have hne : (AsmStmt.label m == AsmStmt.label l) = false := by
              simp
              intro hc
              exact absurd hc.symm hlm
            rw [hne]
            simp
          rw [hcnt] at h
          refine ih (acc ++ [m]) ?_
          rcases h with h2 | ⟨hmem, h1⟩
          · exact Or.inl h2
          · exact Or.inr ⟨by simp [hmem], h1⟩
    · have hne : ∀ m, s ≠ AsmStmt.label m := fun m hm => hlab ⟨m, hm⟩
      rw [scanLabels_cons_nonlabel s hne rest acc]
      have hcnt : (s :: rest).count (AsmStmt.label l) =
          rest.count (AsmStmt.label l) := by
        rw [List.count_cons]
        have hb : (s == AsmStmt.label l) = false := by
          have := hne l
          simp_all
        rw [hb]
        simp
      rw [hcnt] at h
      exact ih acc h

/-- C6.  Whenever the same label name is defined by two label-definition
statements of the input, `assemble` fails with a duplicate-label error and
returns no output sequence at all (the error carries no words). -/
theorem claim_C6_theorem (stmts : List AsmStmt) (l : String)
    (h : 2 ≤ stmts.count (AsmStmt.label l)) :
    ∃ l', assemble stmts = .error ("Label " ++ l' ++ " already defined") := by
  obtain ⟨l', h'⟩ := scanLabels_dup l stmts [] (Or.inl h)
  refine ⟨l', ?_⟩
  unfold assemble
  rw [h']

/-- Witness for C6: `(LOOP) JUMP (LOOP)` fails with the duplicate-label
error for `LOOP`. -/
theorem claim_C6_witness :
    ∃ l', assemble [AsmStmt.label "LOOP", AsmStmt.jump, AsmStmt.label "LOOP"] =
      .error ("Label " ++ l' ++ " already defined") :=
  claim_C6_theorem _ "LOOP" (by decide)

/-- The disassembler's destination-letter extraction inverts the
assembler's 5-bit result field. -/
theorem resString_registers (d : RegSet) :
    resString (registers d).data = resOf d := by
  obtain ⟨a, b, c, e, m⟩ := d
  cases a <;> cases b <;> cases c <;> cases e <;> cases m <;> rfl

theorem registers_length (d : RegSet) : (registers d).length = 5 := by
  obtain ⟨a, b, c, e, m⟩ := d
  cases a <;> cases b <;> cases c <;> cases e <;> cases m <;> rfl

theorem registers_bits (d : RegSet) :
    (registers d).data.all (fun ch => ch == '0' || ch == '1') = true := by
  obtain ⟨a, b, c, e, m⟩ := d
  cases a <;> cases b <;> cases c <;> cases e <;> cases m <;> rfl

/-- An 11-character bit prefix followed by a 5-bit result field is a valid
word. -/
theorem validWord_shape (pre : String) (d : RegSet) (hpre : pre.length = 11)
    (hbits : pre.data.all (fun ch => ch == '0' || ch == '1') = true) :
    Computer.validWord (pre ++ registers d) = true := by
  unfold Computer.validWord
  rw [String.length_append, hpre, registers_length]
  rw [String.data_append, List.all_append, hbits, registers_bits]
  rfl

/-- `bin15` lists the 15 most-significant-first bits. -/
theorem bin15_data (n : Nat) : (bin15 n).data = bitChars 15 n := rfl

/-- Folding the binary digits most-significant-first accumulates the
value modulo the width. -/
theorem foldl_bitChars (w : Nat) : ∀ (acc v : Nat),
    (bitChars w v).foldl (fun acc ch => 2 * acc + (if ch == '1' then 1 else 0)) acc
      = acc * 2 ^ w + v % 2 ^ w := by
  induction w with
  | zero =>
    intro acc v
    simp [bitChars, Nat.mod_one]
  | succ w ih =>
    intro acc v
    rw [show bitChars (w + 1) v =
      (if v / 2 ^ w % 2 = 1 then '1' else '0') :: bitChars w v from rfl]
    rw [List.foldl_cons, ih, Nat.mod_pow_succ]
    rcases Nat.mod_two_eq_zero_or_one (v / 2 ^ w) with h2 | h2 <;> rw [h2] <;>
      simp <;> ring

/-- Parsing the 15-bit zero-padded binary rendering recovers the value. -/
theorem binToNat_bin15 (n : Nat) (h : n < 32768) :
    Computer.binToNat (bin15 n).data = n := by
  rw [bin15_data]
  unfold Computer.binToNat
  rw [foldl_bitChars 15 0 n]
  have h15 : (2 : Nat) ^ 15 = 32768 := by norm_num
  rw [h15, Nat.zero_mul, Nat.zero_add, Nat.mod_eq_of_lt h]

theorem bitChars_bits (w : Nat) : ∀ v,
    (bitChars w v).all (fun ch => ch == '0' || ch == '1') = true := by
  induction w with
  | zero => intro v; rfl
  | succ w ih =>
    intro v
    rw [show bitChars (w + 1) v =
      (if v / 2 ^ w % 2 = 1 then '1' else '0') :: bitChars w v from rfl]
    rw [List.all_cons, ih]
    rcases Nat.mod_two_eq_zero_or_one (v / 2 ^ w) with h2 | h2 <;> simp [h2]

/-- A padded immediate word is a valid 16-character word. -/
theorem validWord_imm (v : Nat) : Computer.validWord ("0" ++ bin15 v) = true := by
  unfold Computer.validWord
  rw [String.length_append]
  rw [show ("0" : String).length = 1 from rfl, show (bin15 v).length = 15 from rfl]
  rw [String.data_append, List.all_append]
  rw [show (("0" : String).data.all (fun ch => ch == '0' || ch == '1')) = true from rfl]
  rw [bin15_data, bitChars_bits 15 v]
  rfl

/-- Assembling one label-free statement that lowers to a single word. -/
theorem assemble_one (s : AsmStmt) (w : String) (vl' : List (String × Nat))
    (h1 : scanLabels [s] [] = .ok [])
    (h2 : lower [] s varlookupInit = ([PreInstr.word w], vl')) :
    assemble [s] = .ok [w] := by
  unfold assemble
  rw [h1]
  dsimp only
  unfold lowerAll
  rw [h2]
  rfl

/-- The assembly of a lone named immediate: the resolved variable address. -/
theorem assemble_imm_name (x : String) :
    assemble [AsmStmt.immediate_name x] = .ok ["0" ++ bin15 (nameValue x)] := by
  have h2 : lower [] (AsmStmt.immediate_name x) varlookupInit =
      ([PreInstr.word ("0" ++ bin15 (nameValue x))],
        match varlookupInit.lookup x with
        | some _ => varlookupInit
        | none => varlookupInit ++
            [(x, Computer.STATIC + varlookupInit.length - predefined_variables)]) := by
    unfold lower nameValue
    dsimp only
    rw [if_neg (List.not_mem_nil x)]
    rcases hl : varlookupInit.lookup x with _ | v <;> rfl
  exact assemble_one _ _ _ rfl h2

/-- Every predefined variable address is below 2^15. -/
theorem lookupInit_lt (x : String) (v : Nat)
    (hl : varlookupInit.lookup x = some v) : v < 32768 := by
  unfold varlookupInit at hl
  simp only [List.lookup] at hl
  repeat' split at hl
  all_goals (try simp_all)
  all_goals omega

/-- Every address a lone named immediate resolves to is below 2^15. -/
theorem nameValue_lt (x : String) : nameValue x < 32768 := by
  unfold nameValue
  rcases hl : varlookupInit.lookup x with _ | v
  · decide
  · exact lookupInit_lt x v hl

set_option maxHeartbeats 4000000 in
/-- C8.  For every symbolic statement whose encoding is a single valid
16-character word — numeric immediates below 2^15, named immediates,
copy/negate/negative/calculate, and `JUMP` — `assemble` produces exactly
the word `encodeWord s`, that word is valid, and `disassemble` maps it
back to the statement's canonical symbolic form: immediates come back as
`@<value>`, operations as `<dest-regs> = <expr>`, and `JUMP` as the `JMP`
form, identical to the input up to comments and whitespace. -/
theorem claim_C8_theorem (s : AsmStmt) (h : singleWordOk s = true) :
    assemble [s] = .ok [encodeWord s] ∧
    Computer.validWord (encodeWord s) = true ∧
    disassemble (encodeWord s) = some (render s) := by
  cases s with
  | immediate_num n =>
    have hn : n < 32768 := by simpa [singleWordOk] using h
    refine ⟨assemble_one _ _ _ rfl rfl, validWord_imm n, ?_⟩
    have hdis : disassemble ("0" ++ bin15 n) =
        some ("@" ++ toString (Computer.binToNat (bin15 n).data)) := rfl
    show disassemble ("0" ++ bin15 n) = some ("@" ++ toString n)
    rw [hdis, binToNat_bin15 n hn]
  | immediate_name x =>
    refine ⟨assemble_imm_name x, validWord_imm (nameValue x), ?_⟩
    have hdis : disassemble ("0" ++ bin15 (nameValue x)) =
        some ("@" ++ toString (Computer.binToNat (bin15 (nameValue x)).data)) := rfl
    show disassemble ("0" ++ bin15 (nameValue x)) =
      some ("@" ++ toString (nameValue x))
    rw [hdis, binToNat_bin15 (nameValue x) (nameValue_lt x)]
  | copy dst src =>
    refine ⟨assemble_one _ _ _ rfl rfl, ?_, ?_⟩
    · cases src <;> exact validWord_shape _ dst rfl rfl
    · cases src <;> (rw [show render (AsmStmt.copy dst _) =
        resOf dst ++ " = " ++ operandName _ from rfl, ← resString_registers]; rfl)
  | negate dst src =>
    refine ⟨assemble_one _ _ _ rfl rfl, ?_, ?_⟩
    · cases src <;> exact validWord_shape _ dst rfl rfl
    · cases src <;> (rw [show render (AsmStmt.negate dst _) =
        resOf dst ++ " = !" ++ operandName _ from rfl, ← resString_registers]; rfl)
  | negative dst src =>
    refine ⟨assemble_one _ _ _ rfl rfl, ?_, ?_⟩
    · cases src <;> exact validWord_shape _ dst rfl rfl
    · cases src <;> (rw [show render (AsmStmt.negative dst _) =
        resOf dst ++ " = -" ++ operandName _ from rfl, ← resString_registers]; rfl)
  | calculate dst x op y =>
    refine ⟨assemble_one _ _ _ rfl rfl, ?_, ?_⟩
    · cases op <;> cases x <;> cases y <;> exact validWord_shape _ dst rfl rfl
    · cases op <;> cases x <;> cases y <;>
        (simp only [render]; rw [← resString_registers]; rfl)
  | conditional x cmp y t => simp [singleWordOk] at h
  | goto t => simp [singleWordOk] at h
  | label m => simp [singleWordOk] at h
  | jump => exact ⟨assemble_one _ _ _ rfl rfl, rfl, rfl⟩

/-- Witness for C8: the single statement `D = D + A` assembles to one word
whose disassembly is the statement itself. -/
theorem claim_C8_witness :
    assemble [AsmStmt.calculate ⟨false, false, false, true, false⟩ .D .add .A] =
      .ok [encodeWord (AsmStmt.calculate ⟨false, false, false, true, false⟩ .D .add .A)] ∧
    Computer.validWord
      (encodeWord (AsmStmt.calculate ⟨false, false, false, true, false⟩ .D .add .A)) = true ∧
    disassemble
      (encodeWord (AsmStmt.calculate ⟨false, false, false, true, false⟩ .D .add .A)) =
      some "D = D + A" := by
  have h := claim_C8_theorem
    (AsmStmt.calculate ⟨false, false, false, true, false⟩ .D .add .A) (by decide)
  exact ⟨h.1, h.2.1, h.2.2⟩

/-- C7.  Assembling the six statements written
`@2  D=A  @3  D=D+A  @0  M=D` and running the binary on a freshly loaded
simulator leaves memory cell 0 holding 5. -/
theorem claim_C7_theorem :
    ∃ (ws : List String) (cf : Computer),
      assemble
        [AsmStmt.immediate_num 2,
         AsmStmt.copy ⟨false, false, false, true, false⟩ .A,
         AsmStmt.immediate_num 3,
         AsmStmt.calculate ⟨false, false, false, true, false⟩ .D .add .A,
         AsmStmt.immediate_num 0,
         AsmStmt.copy ⟨false, false, false, false, true⟩ .D] = .ok ws ∧
      (Computer.load ws).run = some cf ∧ cf.ram 0 = 5 := by
  exact ⟨_, _, rfl, rfl, rfl⟩

end AssemblerTheorems

end Symphony
